import Mathlib

/-!
Verification of the sentionaut terrain-mesh generator.

Shallow embedding of `src/setup.rs`: the grid-mesh builder
(`impl From<Land> for Mesh`, lines 92–177) and the vertex colorizer
(the closure in `setup_world`, lines 20–39).

Modelling conventions:
* `f32` arithmetic is modelled by exact rational arithmetic (`ℚ`);
  division is Lean's total division (`x / 0 = 0`).
* `u32`/`usize` index arithmetic is modelled by `ℕ`; the spec (§7) rules
  out resolutions large enough to overflow `u32` as precondition
  violations, and in the overflow-free range the `ℕ` model is exact.
* `itertools::cartesian_product` is `List.product` (outer factor varies
  slower), `enumerate` is `List.enum`, `filter_map` is `List.filterMap`,
  and the two `.flatten()` calls are `List.flatten`.
-/

namespace Sentionaut

/-- The `Land` struct (a.k.a. `GridSpec` in the spec): `size : f32` and
`num_vertices : u32` (spec name: `resolution`). -/
structure GridSpec where
  size : ℚ
  resolution : ℕ
deriving DecidableEq

/-- The mesh buffers produced by `Mesh::from`: positions, normals, uvs
(the vertex attributes) and the `u32` index list. -/
structure MeshBuffers where
  positions : List (ℚ × ℚ × ℚ)
  normals : List (ℚ × ℚ × ℚ)
  uvs : List (ℚ × ℚ)
  indices : List ℕ
deriving DecidableEq

/-- Lines 94–116 of `setup.rs`: `extent = size / 2`,
`jump = extent / num_vertices`, then
`(0..=n).cartesian_product(0..=n).map(|(y, x)| (position, normal, uv))`.
The outer factor of the cartesian product is bound to `y`, the inner to
`x`. -/
def vertexList (plane : GridSpec) : List ((ℚ × ℚ × ℚ) × (ℚ × ℚ × ℚ) × (ℚ × ℚ)) :=
  let extent : ℚ := plane.size / 2
  let jump : ℚ := extent / (plane.resolution : ℚ)
  ((List.range (plane.resolution + 1)).product (List.range (plane.resolution + 1))).map
    (fun yx =>
      let y := yx.1
      let x := yx.2
      (((x : ℚ) * jump - (1/2 : ℚ) * extent, 0, (y : ℚ) * jump - (1/2 : ℚ) * extent),
       (0, 1, 0),
       ((x : ℚ) / (plane.resolution : ℚ), (y : ℚ) / (plane.resolution : ℚ))))

/-- Lines 119–154 of `setup.rs`: enumerate the cartesian product
(`|(index, (x, y))|`: here the OUTER factor is bound to `x` and the inner
to `y`), skip pairs with `y >= num_vertices` or `x >= num_vertices`, emit
the two triangles of the surviving cell, then flatten twice. -/
def indexList (plane : GridSpec) : List ℕ :=
  let n := plane.resolution
  ((((List.range (n + 1)).product (List.range (n + 1))).enum.filterMap
    (fun ixy =>
      let index := ixy.1
      let x := ixy.2.1
      let y := ixy.2.2
      if n ≤ y then none
      else if n ≤ x then none
      else some [[index, index + 1 + 1 + n, index + 1],
                 [index, index + 1 + n, index + n + 1 + 1]])).flatten).flatten

/-- Lines 156–176 of `setup.rs`: project the vertex tuples into the three
attribute buffers and attach the index list. -/
def build (spec : GridSpec) : MeshBuffers :=
  let vertices := vertexList spec
  { positions := vertices.map (fun v => v.1)
    normals := vertices.map (fun v => v.2.1)
    uvs := vertices.map (fun v => v.2.2)
    indices := indexList spec }

/-- Lines 24–34 of `setup.rs` (`setup_world`): map each position
`[r, g, b]` to the color `[(1-r)/2, (1-g)/2, (1-b)/2, 1]`. -/
def colorize (positions : List (ℚ × ℚ × ℚ)) : List (ℚ × ℚ × ℚ × ℚ) :=
  positions.map (fun p =>
    ((1 - p.1) / 2, (1 - p.2.1) / 2, (1 - p.2.2) / 2, 1))

/-- The `t`-th consecutive index triple (triangle) of an index list, when
all three slots exist. -/
def triangleAt (l : List ℕ) (t : ℕ) : Option (ℕ × ℕ × ℕ) :=
  l[3 * t]?.bind (fun a =>
    (l[3 * t + 1]?).bind (fun b =>
      (l[3 * t + 2]?).map (fun c => (a, b, c))))

/-! ## Spec-side reference definitions (for refinement claims)

These follow the WORDS of the spec (§4.1), to be compared with the
definitions above, which follow the source. -/

/-- Spec §4.1 step 4: for every cell `(row, col)` with `row < R` and
`col < R` in row-major order, the two triangles
`(i, i+R+2, i+1)` and `(i, i+R+1, i+R+2)` with `i = row*(R+1) + col`. -/
def specIndices (R : ℕ) : List ℕ :=
  (List.range R).flatMap (fun row =>
    (List.range R).flatMap (fun col =>
      let i := row * (R + 1) + col
      [i, i + R + 2, i + 1, i, i + R + 1, i + R + 2]))

/-- Spec §4.1 step 2: positions in row-major order,
`(col*step - 0.5*extent, 0, row*step - 0.5*extent)`. -/
def specPositions (spec : GridSpec) : List (ℚ × ℚ × ℚ) :=
  let extent : ℚ := spec.size / 2
  let step : ℚ := extent / (spec.resolution : ℚ)
  (List.range (spec.resolution + 1)).flatMap (fun (row : ℕ) =>
    (List.range (spec.resolution + 1)).map (fun (col : ℕ) =>
      ((col : ℚ) * step - (1/2 : ℚ) * extent, 0, (row : ℚ) * step - (1/2 : ℚ) * extent)))

/-- Spec §4.1 step 2: one constant normal `(0,1,0)` per vertex. -/
def specNormals (spec : GridSpec) : List (ℚ × ℚ × ℚ) :=
  (List.range (spec.resolution + 1)).flatMap (fun _ =>
    (List.range (spec.resolution + 1)).map (fun _ => ((0 : ℚ), 1, 0)))

/-- Spec §4.1 step 2: uv `(col/resolution, row/resolution)` in row-major
order. -/
def specUvs (spec : GridSpec) : List (ℚ × ℚ) :=
  (List.range (spec.resolution + 1)).flatMap (fun (row : ℕ) =>
    (List.range (spec.resolution + 1)).map (fun (col : ℕ) =>
      ((col : ℚ) / (spec.resolution : ℚ), (row : ℚ) / (spec.resolution : ℚ))))

/-! ## Generic list lemmas -/

lemma enumFrom_append (l₁ l₂ : List α) (k : ℕ) :
    List.enumFrom k (l₁ ++ l₂) = List.enumFrom k l₁ ++ List.enumFrom (k + l₁.length) l₂ := by
  induction l₁ generalizing k with
  | nil => simp
  | cons a l ih =>
      have h : k + 1 + l.length = k + (l.length + 1) := by omega
      simp only [List.cons_append, List.enumFrom_cons, ih, List.length_cons, h]

lemma enumFrom_map (k : ℕ) (l : List α) (g : α → β) :
    List.enumFrom k (l.map g) = (List.enumFrom k l).map (fun p => (p.1, g p.2)) := by
  induction l generalizing k with
  | nil => rfl
  | cons a l ih => simp [List.enumFrom_cons, ih]

lemma enumFrom_range (k n : ℕ) :
    List.enumFrom k (List.range n) = (List.range n).map (fun x => (k + x, x)) := by
  induction n with
  | zero => rfl
  | succ n ih => simp [List.range_succ, enumFrom_append, ih]

lemma filterMap_eq_map_of_forall (l : List α) (p : α → Option β) (q : α → β)
    (h : ∀ a ∈ l, p a = some (q a)) : l.filterMap p = l.map q := by
  induction l with
  | nil => rfl
  | cons a l ih =>
      simp only [List.filterMap_cons, h a (by simp), List.map_cons]
      rw [ih (fun a ha => h a (by simp [ha]))]

lemma flatMap_congr (l : List α) (f g : α → List β) (h : ∀ a ∈ l, f a = g a) :
    l.flatMap f = l.flatMap g := by
  induction l with
  | nil => rfl
  | cons a l ih =>
      simp only [List.flatMap_cons, h a (by simp)]
      rw [ih fun a ha => h a (by simp [ha])]

lemma length_flatMap_const (l : List α) (f : α → List β) (c : ℕ)
    (h : ∀ a ∈ l, (f a).length = c) : (l.flatMap f).length = l.length * c := by
  induction l with
  | nil => simp
  | cons a l ih =>
      have ha : (f a).length = c := h a (by simp)
      have ih2 := ih fun b hb => h b (by simp [hb])
      simp only [List.flatMap_cons, List.length_append, ha, ih2, List.length_cons, Nat.succ_mul]
      ring

lemma flatten_flatMap (l : List α) (f : α → List (List β)) :
    (l.flatMap f).flatten = l.flatMap (fun a => (f a).flatten) := by
  induction l with
  | nil => rfl
  | cons a l ih => simp only [List.flatMap_cons, List.flatten_append, ih]

lemma length_flatMap_map_range (m L : ℕ) (g : ℕ → ℕ → β) :
    ((List.range m).flatMap (fun y => (List.range L).map (g y))).length = m * L := by
  rw [length_flatMap_const (List.range m) _ L (by intro a _; simp), List.length_range]

lemma enumFrom_flatMap_map (L k : ℕ) (g : ℕ → ℕ → β) (m : ℕ) :
    List.enumFrom k ((List.range m).flatMap (fun y => (List.range L).map (g y)))
      = (List.range m).flatMap (fun y =>
          (List.range L).map (fun x => (k + y * L + x, g y x))) := by
  induction m with
  | zero => rfl
  | succ m ih =>
      rw [List.range_succ, List.flatMap_append, List.flatMap_append, enumFrom_append,
        length_flatMap_map_range, ih]
      congr 1
      simp [enumFrom_map, enumFrom_range, Function.comp]

/-- The contribution of one row of the enumerated grid to the index list:
rows with `n ≤ y` and the last column are filtered out, the remaining
cells each contribute six indices. -/
lemma row_result (n y k : ℕ) :
    ((((List.range (n + 1)).filterMap (fun x =>
        if n ≤ x then none
        else if n ≤ y then none
        else some [[k + x, k + x + 1 + 1 + n, k + x + 1],
                   [k + x, k + x + 1 + n, k + x + n + 1 + 1]])).flatten).flatten)
      = if n ≤ y then [] else
          (List.range n).flatMap (fun x =>
            [k + x, k + x + n + 2, k + x + 1, k + x, k + x + n + 1, k + x + n + 2]) := by
  by_cases hy : n ≤ y
  · rw [if_pos hy]
    have hnil : (List.range (n + 1)).filterMap (fun x =>
        if n ≤ x then none
        else if n ≤ y then none
        else some [[k + x, k + x + 1 + 1 + n, k + x + 1],
                   [k + x, k + x + 1 + n, k + x + n + 1 + 1]]) = ([] : List (List (List ℕ))) := by
      rw [List.filterMap_eq_nil_iff]
      intro x _
      by_cases hx : n ≤ x
      · rw [if_pos hx]
      · rw [if_neg hx, if_pos hy]
    rw [hnil]
    rfl
  · rw [if_neg hy, List.range_succ, List.filterMap_append]
    have h1 : (List.range n).filterMap (fun x =>
        if n ≤ x then none
        else if n ≤ y then none
        else some [[k + x, k + x + 1 + 1 + n, k + x + 1],
                   [k + x, k + x + 1 + n, k + x + n + 1 + 1]])
        = (List.range n).map (fun x =>
            [[k + x, k + x + 1 + 1 + n, k + x + 1],
             [k + x, k + x + 1 + n, k + x + n + 1 + 1]]) := by
      apply filterMap_eq_map_of_forall
      intro x hx
      rw [if_neg (by simpa using List.mem_range.mp hx), if_neg hy]
    have h2 : [n].filterMap (fun x =>
        if n ≤ x then none
        else if n ≤ y then none
        else some [[k + x, k + x + 1 + 1 + n, k + x + 1],
                   [k + x, k + x + 1 + n, k + x + n + 1 + 1]]) = [] := by
      simp
    rw [h1, h2, List.append_nil, ← List.flatMap_def, flatten_flatMap]
    apply flatMap_congr
    intro x _
    simp only [List.flatten_cons, List.flatten_nil, List.append_nil, List.cons_append,
      List.nil_append, List.cons.injEq, true_and, and_true]
    omega

/-- Restatement of `row_result` for a row of enumerated pairs before the
`filterMap`-over-`map` fusion. -/
lemma row_result2 (n y k : ℕ) :
    ((((List.range (n + 1)).map (fun x => (k + x, (y, x)))).filterMap (fun ixy =>
        if n ≤ ixy.2.2 then none
        else if n ≤ ixy.2.1 then none
        else some [[ixy.1, ixy.1 + 1 + 1 + n, ixy.1 + 1],
                   [ixy.1, ixy.1 + 1 + n, ixy.1 + n + 1 + 1]])).flatten).flatten
      = if n ≤ y then [] else
          (List.range n).flatMap (fun x =>
            [k + x, k + x + n + 2, k + x + 1, k + x, k + x + n + 1, k + x + n + 2]) := by
  rw [List.filterMap_map]
  have hcomp : ((fun ixy : ℕ × ℕ × ℕ =>
      if n ≤ ixy.2.2 then none
      else if n ≤ ixy.2.1 then none
      else some [[ixy.1, ixy.1 + 1 + 1 + n, ixy.1 + 1],
                 [ixy.1, ixy.1 + 1 + n, ixy.1 + n + 1 + 1]]) ∘ fun x => (k + x, (y, x)))
      = fun x =>
        if n ≤ x then none
        else if n ≤ y then none
        else some [[k + x, k + x + 1 + 1 + n, k + x + 1],
                   [k + x, k + x + 1 + n, k + x + n + 1 + 1]] := by
    funext x
    rfl
  rw [hcomp]
  exact row_result n y k

/-- The index list of the source (`enumerate` + `filter_map` + double
`flatten` over the cartesian product) equals the row-major per-cell
triangle list of the spec. -/
lemma indexList_eq_spec (spec : GridSpec) :
    indexList spec = specIndices spec.resolution := by
  rcases spec with ⟨s, n⟩
  show ((((List.range (n + 1)).product (List.range (n + 1))).enum.filterMap
    (fun ixy =>
      if n ≤ ixy.2.2 then none
      else if n ≤ ixy.2.1 then none
      else some [[ixy.1, ixy.1 + 1 + 1 + n, ixy.1 + 1],
                 [ixy.1, ixy.1 + 1 + n, ixy.1 + n + 1 + 1]])).flatten).flatten
    = specIndices n
  have hprod : (List.range (n + 1)).product (List.range (n + 1))
      = (List.range (n + 1)).flatMap (fun y => (List.range (n + 1)).map (Prod.mk y)) := rfl
  have henum : ∀ l : List (ℕ × ℕ), l.enum = List.enumFrom 0 l := fun _ => rfl
  rw [hprod, henum, enumFrom_flatMap_map, List.filterMap_flatMap]
  simp only [Nat.zero_add]
  rw [flatten_flatMap, flatten_flatMap]
  have hrows : ∀ y ∈ List.range (n + 1),
      ((((List.range (n + 1)).map (fun x => (y * (n + 1) + x, (y, x)))).filterMap (fun ixy =>
          if n ≤ ixy.2.2 then none
          else if n ≤ ixy.2.1 then none
          else some [[ixy.1, ixy.1 + 1 + 1 + n, ixy.1 + 1],
                     [ixy.1, ixy.1 + 1 + n, ixy.1 + n + 1 + 1]])).flatten).flatten
        = if n ≤ y then [] else
            (List.range n).flatMap (fun x =>
              [y * (n + 1) + x, y * (n + 1) + x + n + 2, y * (n + 1) + x + 1,
               y * (n + 1) + x, y * (n + 1) + x + n + 1, y * (n + 1) + x + n + 2]) :=
    fun y _ => row_result2 n y (y * (n + 1))
  rw [flatMap_congr _ _ _ hrows, List.range_succ, List.flatMap_append]
  have hlast : [n].flatMap (fun y =>
      if n ≤ y then [] else
        (List.range n).flatMap (fun x =>
          [y * (n + 1) + x, y * (n + 1) + x + n + 2, y * (n + 1) + x + 1,
           y * (n + 1) + x, y * (n + 1) + x + n + 1, y * (n + 1) + x + n + 2])) = [] := by
    simp
  rw [hlast, List.append_nil, specIndices]
  apply flatMap_congr
  intro y hy
  rw [if_neg (by simpa using List.mem_range.mp hy)]

lemma product_range_eq (a b : ℕ) :
    (List.range a).product (List.range b)
      = (List.range a).flatMap (fun y => (List.range b).map (Prod.mk y)) := rfl

lemma build_indices (spec : GridSpec) : (build spec).indices = indexList spec := rfl

lemma build_positions (spec : GridSpec) :
    (build spec).positions = (vertexList spec).map (fun v => v.1) := rfl

lemma build_normals (spec : GridSpec) :
    (build spec).normals = (vertexList spec).map (fun v => v.2.1) := rfl

lemma build_uvs (spec : GridSpec) :
    (build spec).uvs = (vertexList spec).map (fun v => v.2.2) := rfl

/-- The position buffer equals the spec's row-major position formula. -/
lemma positions_eq_spec (spec : GridSpec) :
    (build spec).positions = specPositions spec := by
  rcases spec with ⟨s, n⟩
  simp only [build_positions, vertexList, specPositions, product_range_eq,
    List.map_flatMap, List.map_map]
  rfl

/-- The normal buffer equals the spec's constant-normal formula. -/
lemma normals_eq_spec (spec : GridSpec) :
    (build spec).normals = specNormals spec := by
  rcases spec with ⟨s, n⟩
  simp only [build_normals, vertexList, specNormals, product_range_eq,
    List.map_flatMap, List.map_map]
  rfl

/-- The uv buffer equals the spec's row-major uv formula. -/
lemma uvs_eq_spec (spec : GridSpec) :
    (build spec).uvs = specUvs spec := by
  rcases spec with ⟨s, n⟩
  simp only [build_uvs, vertexList, specUvs, product_range_eq,
    List.map_flatMap, List.map_map]
  rfl

lemma positions_length (spec : GridSpec) :
    (build spec).positions.length = (spec.resolution + 1) ^ 2 := by
  rcases spec with ⟨s, n⟩
  simp only [build_positions, vertexList, product_range_eq, List.length_map]
  rw [length_flatMap_map_range, pow_two]

lemma specIndices_length (R : ℕ) : (specIndices R).length = 6 * R ^ 2 := by
  have hinner : ∀ row ∈ List.range R,
      ((List.range R).flatMap (fun col =>
        let i := row * (R + 1) + col
        [i, i + R + 2, i + 1, i, i + R + 1, i + R + 2])).length = R * 6 := by
    intro row _
    rw [length_flatMap_const (List.range R) _ 6 (by intro col _; rfl), List.length_range]
  rw [specIndices, length_flatMap_const (List.range R) _ (R * 6) hinner, List.length_range]
  ring

lemma indices_length (spec : GridSpec) :
    (build spec).indices.length = 6 * spec.resolution ^ 2 := by
  rw [build_indices, indexList_eq_spec, specIndices_length]

/-- Positional access into a `flatMap` whose blocks all have length `c`. -/
lemma getElem?_flatMap_const (l : List α) (f : α → List β) (c : ℕ)
    (h : ∀ a ∈ l, (f a).length = c) (q r : ℕ) (hr : r < c) :
    (l.flatMap f)[q * c + r]? = l[q]?.bind (fun a => (f a)[r]?) := by
  induction l generalizing q with
  | nil => simp
  | cons a l ih =>
      have ha : (f a).length = c := h a (by simp)
      cases q with
      | zero =>
          simp only [List.flatMap_cons, Nat.zero_mul, Nat.zero_add, List.getElem?_cons_zero,
            Option.some_bind]
          rw [List.getElem?_append_left (by rw [ha]; exact hr)]
      | succ q =>
          have hle : c ≤ (q + 1) * c + r := by
            rw [Nat.succ_mul]
            exact le_trans (Nat.le_add_left c (q * c)) (Nat.le_add_right _ r)
          simp only [List.flatMap_cons, List.getElem?_cons_succ]
          rw [List.getElem?_append_right (by rw [ha]; exact hle), ha]
          have harith : (q + 1) * c + r - c = q * c + r := by
            rw [Nat.succ_mul]
            generalize q * c = A
            omega
          rw [harith, ih (fun b hb => h b (by simp [hb]))]

/-- The cell list underlying `specIndices` at flat position `row*R + col`. -/
lemma cells_getElem? (R row col : ℕ) (hrow : row < R) (hcol : col < R) :
    ((List.range R).flatMap (fun r0 => (List.range R).map (Prod.mk r0)))[row * R + col]?
      = some (row, col) := by
  rw [getElem?_flatMap_const (List.range R) _ R (by intro a _; simp) row col hcol,
    List.getElem?_range hrow]
  simp [List.getElem?_map, List.getElem?_range hcol]

/-- Rewriting of `specIndices` as a single `flatMap` of six-element blocks
over the cell list. -/
lemma specIndices_eq_cellsFlat (R : ℕ) :
    specIndices R = ((List.range R).flatMap (fun r0 => (List.range R).map (Prod.mk r0))).flatMap
      (fun rc => [rc.1 * (R + 1) + rc.2, rc.1 * (R + 1) + rc.2 + R + 2, rc.1 * (R + 1) + rc.2 + 1,
                  rc.1 * (R + 1) + rc.2, rc.1 * (R + 1) + rc.2 + R + 1,
                  rc.1 * (R + 1) + rc.2 + R + 2]) := by
  rw [specIndices, List.flatMap_assoc]
  apply flatMap_congr
  intro row _
  rw [List.flatMap_map]

/-- Element `r` of the six-index block of cell `(row, col)` inside
`specIndices`. -/
lemma specIndices_getElem? (R row col r : ℕ) (hrow : row < R) (hcol : col < R) (hr : r < 6) :
    (specIndices R)[(row * R + col) * 6 + r]?
      = [row * (R + 1) + col, row * (R + 1) + col + R + 2, row * (R + 1) + col + 1,
         row * (R + 1) + col, row * (R + 1) + col + R + 1, row * (R + 1) + col + R + 2][r]? := by
  rw [specIndices_eq_cellsFlat,
    getElem?_flatMap_const _ _ 6 (by intro a _; rfl) (row * R + col) r hr,
    cells_getElem? R row col hrow hcol]
  rfl

/-- The largest index emitted for cell `(row, col)` is below the vertex
count. -/
lemma cell_bound (R row col : ℕ) (hrow : row < R) (hcol : col < R) :
    row * (R + 1) + col + R + 2 < (R + 1) ^ 2 := by
  have h1 : (row + 1) * (R + 1) ≤ R * (R + 1) := Nat.mul_le_mul_right (R + 1) hrow
  have e2 : (row + 1) * (R + 1) = row * (R + 1) + R + 1 := by ring
  have e1 : (R + 1) ^ 2 = R * (R + 1) + R + 1 := by ring
  rw [e2] at h1
  rw [e1]
  generalize row * (R + 1) = A at h1 ⊢
  generalize R * (R + 1) = B at h1 ⊢
  omega

/-! ## Claims -/

/-- C1: for every GridSpec with resolution `R ≥ 1`, the index list produced
by `build` consists, for every cell `(row, col)` with `row < R`, `col < R`
in row-major cell order, of exactly the two consecutive triangles
`(i, i+R+2, i+1)` then `(i, i+R+1, i+R+2)` with `i = row*(R+1)+col`, and
no other indices. -/
theorem claim_C1 (spec : GridSpec) (h : 1 ≤ spec.resolution) :
    (build spec).indices = specIndices spec.resolution :=
  indexList_eq_spec spec

theorem claim_C1_witness :
    1 ≤ (GridSpec.mk 2 1).resolution ∧
      (build ⟨2, 1⟩).indices = specIndices (GridSpec.mk 2 1).resolution :=
  ⟨by decide, claim_C1 ⟨2, 1⟩ (by decide)⟩

/-- C2: for every GridSpec with resolution `R ≥ 1`, `build` emits
`(R+1)^2` vertices in row-major order (row varies slower), the vertex at
`(row, col)` having position `(col*step - 0.5*extent, 0, row*step -
0.5*extent)` with `extent = size/2`, `step = extent/R`, normal `(0,1,0)`
and uv `(col/R, row/R)`. -/
theorem claim_C2 (spec : GridSpec) (h : 1 ≤ spec.resolution) :
    (build spec).positions.length = (spec.resolution + 1) ^ 2 ∧
    (build spec).positions = specPositions spec ∧
    (build spec).normals = specNormals spec ∧
    (build spec).uvs = specUvs spec :=
  ⟨positions_length spec, positions_eq_spec spec, normals_eq_spec spec, uvs_eq_spec spec⟩

theorem claim_C2_witness :
    1 ≤ (GridSpec.mk 2 1).resolution ∧ (build ⟨2, 1⟩).positions = specPositions ⟨2, 1⟩ :=
  ⟨by decide, (claim_C2 ⟨2, 1⟩ (by decide)).2.1⟩

/-- C3: for every GridSpec with resolution ≥ 1, the vertex buffer has
length `(resolution+1)^2` and the index list has length
`6 * resolution^2`. -/
theorem claim_C3 (spec : GridSpec) (h : 1 ≤ spec.resolution) :
    (build spec).positions.length = (spec.resolution + 1) ^ 2 ∧
    (build spec).indices.length = 6 * spec.resolution ^ 2 :=
  ⟨positions_length spec, indices_length spec⟩

theorem claim_C3_witness :
    1 ≤ (GridSpec.mk 2 1).resolution ∧ (build ⟨2, 1⟩).indices.length = 6 * 1 ^ 2 :=
  ⟨by decide, (claim_C3 ⟨2, 1⟩ (by decide)).2⟩

/-- C4: for every GridSpec with resolution ≥ 1, every consecutive triple
in the index list produced by `build` has three pairwise-distinct indices,
each strictly less than the vertex count `(resolution+1)^2`, and no index
in the list references an out-of-range vertex offset. -/
theorem claim_C4 (spec : GridSpec) (h : 1 ≤ spec.resolution) :
    (∀ t a b c, triangleAt (build spec).indices t = some (a, b, c) →
      (a ≠ b ∧ a ≠ c ∧ b ≠ c) ∧
      a < (spec.resolution + 1) ^ 2 ∧ b < (spec.resolution + 1) ^ 2 ∧
      c < (spec.resolution + 1) ^ 2) ∧
    (∀ v ∈ (build spec).indices, v < (spec.resolution + 1) ^ 2) := by
  constructor
  · intro t a b c ht
    simp only [triangleAt, Option.bind_eq_some, Option.map_eq_some'] at ht
    obtain ⟨a', h1, b', h2, c', h3, heq⟩ := ht
    obtain ⟨rfl, rfl, rfl⟩ : a' = a ∧ b' = b ∧ c' = c := by
      simpa [Prod.ext_iff] using heq
    have hlen := indices_length spec
    have h3lt : 3 * t + 2 < (build spec).indices.length := (List.getElem?_eq_some_iff.mp h3).1
    rw [hlen] at h3lt
    set R := spec.resolution with hRdef
    have hR : 0 < R := h
    have hts : 2 * (t / 2) + t % 2 = t := Nat.div_add_mod t 2
    have hslt : t % 2 < 2 := Nat.mod_lt t (by omega)
    set q := t / 2 with hqdef
    set s := t % 2 with hsdef
    have hq : q < R * R := by
      have hpow : R ^ 2 = R * R := pow_two R
      rw [hpow] at h3lt
      generalize R * R = P at h3lt ⊢
      omega
    have hrow : q / R < R := (Nat.div_lt_iff_lt_mul hR).mpr hq
    have hcol : q % R < R := Nat.mod_lt _ hR
    have hqsplit : (q / R) * R + q % R = q := by
      rw [Nat.mul_comm]
      exact Nat.div_add_mod q R
    have key : ∀ j, j < 6 → (build spec).indices[q * 6 + j]?
        = [(q / R) * (R + 1) + q % R, (q / R) * (R + 1) + q % R + R + 2,
           (q / R) * (R + 1) + q % R + 1, (q / R) * (R + 1) + q % R,
           (q / R) * (R + 1) + q % R + R + 1, (q / R) * (R + 1) + q % R + R + 2][j]? := by
      intro j hj
      rw [build_indices, indexList_eq_spec]
      have hkey := specIndices_getElem? R (q / R) (q % R) j hrow hcol hj
      rwa [hqsplit] at hkey
    have e1 : 3 * t = q * 6 + 3 * s := by omega
    have e2 : 3 * t + 1 = q * 6 + (3 * s + 1) := by omega
    have e3 : 3 * t + 2 = q * 6 + (3 * s + 2) := by omega
    rw [e1, key (3 * s) (by omega)] at h1
    rw [e2, key (3 * s + 1) (by omega)] at h2
    rw [e3, key (3 * s + 2) (by omega)] at h3
    have hbound := cell_bound R (q / R) (q % R) hrow hcol
    have hs01 : s = 0 ∨ s = 1 := by omega
    rcases hs01 with hs | hs
    · rw [hs] at h1 h2 h3
      norm_num at h1 h2 h3
      subst h1
      subst h2
      subst h3
      generalize (R + 1) ^ 2 = C at hbound ⊢
      generalize (q / R) * (R + 1) + q % R = I at hbound ⊢
      omega
    · rw [hs] at h1 h2 h3
      norm_num at h1 h2 h3
      subst h1
      subst h2
      subst h3
      generalize (R + 1) ^ 2 = C at hbound ⊢
      generalize (q / R) * (R + 1) + q % R = I at hbound ⊢
      omega
  · intro v hv
    rw [build_indices, indexList_eq_spec, specIndices] at hv
    simp only [List.mem_flatMap, List.mem_range] at hv
    obtain ⟨row, hrow, col, hcol, hv⟩ := hv
    have hbound := cell_bound spec.resolution row col hrow hcol
    simp only [List.mem_cons, List.not_mem_nil, or_false] at hv
    generalize (spec.resolution + 1) ^ 2 = C at hbound ⊢
    generalize row * (spec.resolution + 1) + col = I at hbound hv ⊢
    omega

theorem claim_C4_witness :
    1 ≤ (GridSpec.mk 2 1).resolution ∧ (3 : ℕ) < ((GridSpec.mk 2 1).resolution + 1) ^ 2 :=
  ⟨by decide, (claim_C4 ⟨2, 1⟩ (by decide)).2 3 (by decide)⟩

/-- C6: for resolution 0 and any size, `build` does not fail: it produces
exactly one vertex, zero triangles, and an empty index list. -/
theorem claim_C6 (size : ℚ) :
    (build ⟨size, 0⟩).positions.length = 1 ∧
    (build ⟨size, 0⟩).indices = [] ∧
    ∀ t, triangleAt (build ⟨size, 0⟩).indices t = none := by
  have hidx : (build ⟨size, 0⟩).indices = [] := by
    rw [build_indices, indexList_eq_spec]
    rfl
  refine ⟨?_, hidx, ?_⟩
  · rw [positions_length]
    rfl
  · intro t
    rw [hidx]
    simp [triangleAt]

/-- C7: `colorize` maps each position independently through
`((1-x)/2, (1-y)/2, (1-z)/2, 1)`, preserving length and order; in
particular `(0,0,0)` maps to `(0.5, 0.5, 0.5, 1)`. -/
theorem claim_C7 (ps : List (ℚ × ℚ × ℚ)) :
    (colorize ps).length = ps.length ∧
    (∀ i : ℕ, (colorize ps)[i]? = (ps[i]?).map (fun p =>
      ((1 - p.1) / 2, (1 - p.2.1) / 2, (1 - p.2.2) / 2, 1))) ∧
    colorize [(0, 0, 0)] = [((1 : ℚ)/2, (1 : ℚ)/2, (1 : ℚ)/2, (1 : ℚ))] := by
  refine ⟨by simp [colorize], fun i => by simp [colorize], ?_⟩
  norm_num [colorize]

/-- Concrete evaluation: the position buffer for `size = 100`,
`resolution = 1` (the source's own `size`). -/
lemma build_100_1_positions :
    (build ⟨100, 1⟩).positions
      = [(-25, 0, -25), (25, 0, -25), (-25, 0, 25), (25, 0, 25)] := by
  rw [positions_eq_spec]
  norm_num [specPositions, List.range_succ]

/-- Concrete evaluation: colors derived from the `size = 100`,
`resolution = 1` grid. -/
lemma colors_100_1 :
    colorize (build ⟨100, 1⟩).positions
      = [(13, 1/2, 13, 1), (-12, 1/2, 13, 1), (13, 1/2, -12, 1), (-12, 1/2, -12, 1)] := by
  rw [build_100_1_positions]
  norm_num [colorize]

/-- Concrete evaluation: the position buffer for `size = 2`,
`resolution = 1`. -/
lemma build_2_1_positions :
    (build ⟨2, 1⟩).positions
      = [(-1/2, 0, -1/2), (1/2, 0, -1/2), (-1/2, 0, 1/2), (1/2, 0, 1/2)] := by
  rw [positions_eq_spec]
  norm_num [specPositions, List.range_succ]

/-- Concrete evaluation: colors derived from the `size = 2`,
`resolution = 1` grid. -/
lemma colors_2_1 :
    colorize (build ⟨2, 1⟩).positions
      = [(3/4, 1/2, 3/4, 1), (1/4, 1/2, 3/4, 1), (3/4, 1/2, 1/4, 1), (1/4, 1/2, 1/4, 1)] := by
  rw [build_2_1_positions]
  norm_num [colorize]

/-- C5 refuted: the source performs no validation whatsoever — for the
GridSpec with `size = -1 ≤ 0` and `resolution = 1`, `build` produces the
fully-populated buffers (4 vertices, 6 indices) instead of signalling an
`InvalidGridSpec` precondition violation. -/
theorem claim_C5_counterexample :
    (build ⟨-1, 1⟩).positions.length = 4 ∧
    (build ⟨-1, 1⟩).indices = [0, 3, 1, 0, 2, 3] := by
  constructor
  · rw [positions_length]
    norm_num
  · rw [build_indices, indexList_eq_spec]
    rfl

/-- C5 (amended): `build` performs no precondition check at all: for
every GridSpec with `size ≤ 0` (and any resolution) it does not signal an
error but produces the same fully-populated buffers as for positive
sizes — `(R+1)^2` vertices and `6*R^2` indices. -/
theorem claim_C5_amended_thm (spec : GridSpec) (hsize : spec.size ≤ 0) :
    (build spec).positions.length = (spec.resolution + 1) ^ 2 ∧
    (build spec).indices.length = 6 * spec.resolution ^ 2 :=
  ⟨positions_length spec, indices_length spec⟩

theorem claim_C5_amended_witness :
    ((GridSpec.mk (-1) 1).size ≤ 0) ∧
      (build ⟨-1, 1⟩).positions.length = ((GridSpec.mk (-1) 1).resolution + 1) ^ 2 :=
  ⟨by norm_num, (claim_C5_amended_thm ⟨-1, 1⟩ (by norm_num)).1⟩

/-- C8 refuted: for the valid GridSpec `size = 100`, `resolution = 1`
(the source's own size), the first color produced by `colorize` from the
generated positions is `(13, 1/2, 13, 1)`, whose first component `13`
lies outside `[0, 1]`. -/
theorem claim_C8_counterexample :
    (colorize (build ⟨100, 1⟩).positions)[0]? = some (13, 1/2, 13, 1) ∧
    ¬ ((13 : ℚ) ≤ 1) := by
  rw [colors_100_1]
  norm_num

/-- Bound on one planar coordinate of a generated position, for sizes up
to 4. -/
lemma coord_in_unit (sz : ℚ) (R k : ℕ) (h1 : 0 < sz) (h2 : sz ≤ 4) (hR : 1 ≤ R)
    (hk : k ≤ R) :
    -1 ≤ (k : ℚ) * (sz / 2 / (R : ℚ)) - 1/2 * (sz / 2) ∧
      (k : ℚ) * (sz / 2 / (R : ℚ)) - 1/2 * (sz / 2) ≤ 1 := by
  have hRQ : (0 : ℚ) < (R : ℚ) := by exact_mod_cast hR
  have hkQ : (k : ℚ) ≤ (R : ℚ) := by exact_mod_cast hk
  have hkQ0 : (0 : ℚ) ≤ (k : ℚ) := Nat.cast_nonneg k
  have hstep : (0 : ℚ) ≤ sz / 2 / (R : ℚ) := by positivity
  have hRne : (R : ℚ) ≠ 0 := ne_of_gt hRQ
  have hRs : (R : ℚ) * (sz / 2 / (R : ℚ)) = sz / 2 := by
    field_simp
    ring
  constructor
  · have h0 : 0 ≤ (k : ℚ) * (sz / 2 / (R : ℚ)) := mul_nonneg hkQ0 hstep
    linarith
  · have hprod : (k : ℚ) * (sz / 2 / (R : ℚ)) ≤ sz / 2 := by
      calc (k : ℚ) * (sz / 2 / (R : ℚ))
          ≤ (R : ℚ) * (sz / 2 / (R : ℚ)) := mul_le_mul_of_nonneg_right hkQ hstep
        _ = sz / 2 := hRs
    linarith

/-- C8 (amended): colors lie in `[0,1]^4` exactly when the positions stay
in `[-1,1]`, i.e. for valid GridSpecs with `size ≤ 4`; larger sizes are
passed through unclamped (see the counterexample at `size = 100`). -/
theorem claim_C8_amended_thm (spec : GridSpec) (h1 : 0 < spec.size)
    (h2 : spec.size ≤ 4) (hR : 1 ≤ spec.resolution) :
    ∀ c ∈ colorize (build spec).positions,
      (0 ≤ c.1 ∧ c.1 ≤ 1) ∧ (0 ≤ c.2.1 ∧ c.2.1 ≤ 1) ∧
      (0 ≤ c.2.2.1 ∧ c.2.2.1 ≤ 1) ∧ (0 ≤ c.2.2.2 ∧ c.2.2.2 ≤ 1) := by
  intro c hc
  simp only [colorize, List.mem_map] at hc
  obtain ⟨p, hp, rfl⟩ := hc
  rw [positions_eq_spec] at hp
  rcases spec with ⟨sz, R⟩
  simp only [specPositions, List.mem_flatMap, List.mem_map, List.mem_range] at hp
  obtain ⟨row, hrowlt, col, hcollt, rfl⟩ := hp
  have hx := coord_in_unit sz R col h1 h2 hR (by omega)
  have hz := coord_in_unit sz R row h1 h2 hR (by omega)
  refine ⟨⟨by linarith [hx.2], by linarith [hx.1]⟩,
          ⟨by norm_num, by norm_num⟩,
          ⟨by linarith [hz.2], by linarith [hz.1]⟩,
          ⟨by norm_num, by norm_num⟩⟩

theorem claim_C8_amended_witness :
    ((0 : ℚ) < 2) ∧
      (((0 : ℚ) ≤ 3/4 ∧ (3/4 : ℚ) ≤ 1) ∧ ((0 : ℚ) ≤ 1/2 ∧ (1/2 : ℚ) ≤ 1) ∧
       ((0 : ℚ) ≤ 3/4 ∧ (3/4 : ℚ) ≤ 1) ∧ ((0 : ℚ) ≤ 1 ∧ (1 : ℚ) ≤ 1)) := by
  refine ⟨by norm_num, ?_⟩
  exact claim_C8_amended_thm ⟨2, 1⟩ (by norm_num) (by norm_num) (by decide)
    (3/4, 1/2, 3/4, 1) (by rw [colors_2_1]; exact List.mem_cons_self _ _)

/-- C9: `build` is a deterministic pure function of its GridSpec — two
invocations on specs with equal fields produce identical position, normal,
uv and index buffers. -/
theorem claim_C9 (s₁ s₂ : GridSpec) (hsize : s₁.size = s₂.size)
    (hres : s₁.resolution = s₂.resolution) :
    (build s₁).positions = (build s₂).positions ∧
    (build s₁).normals = (build s₂).normals ∧
    (build s₁).uvs = (build s₂).uvs ∧
    (build s₁).indices = (build s₂).indices := by
  rcases s₁ with ⟨a, b⟩
  rcases s₂ with ⟨c, d⟩
  cases hsize
  cases hres
  exact ⟨rfl, rfl, rfl, rfl⟩

theorem claim_C9_witness :
    (GridSpec.mk 2 1).size = (GridSpec.mk 2 1).size ∧
      (build ⟨2, 1⟩).indices = (build ⟨2, 1⟩).indices :=
  ⟨rfl, (claim_C9 ⟨2, 1⟩ ⟨2, 1⟩ rfl rfl).2.2.2⟩

/-- C10: every position emitted by `build` has Y component exactly 0, so
every color derived by `colorize` from those positions has second
component exactly 1/2 and alpha exactly 1. -/
theorem claim_C10 (spec : GridSpec) (h : 1 ≤ spec.resolution) :
    (∀ p ∈ (build spec).positions, p.2.1 = 0) ∧
    (∀ c ∈ colorize (build spec).positions, c.2.1 = 1/2 ∧ c.2.2.2 = 1) := by
  have hy : ∀ p ∈ (build spec).positions, p.2.1 = 0 := by
    intro p hp
    rw [positions_eq_spec] at hp
    rcases spec with ⟨s, n⟩
    simp only [specPositions, List.mem_flatMap, List.mem_map] at hp
    obtain ⟨row, _, col, _, rfl⟩ := hp
    rfl
  refine ⟨hy, ?_⟩
  intro c hc
  simp only [colorize, List.mem_map] at hc
  obtain ⟨p, hp, rfl⟩ := hc
  refine ⟨?_, rfl⟩
  show (1 - p.2.1) / 2 = 1 / 2
  rw [hy p hp]
  norm_num

theorem claim_C10_witness :
    1 ≤ (GridSpec.mk 2 1).resolution ∧
      (((3/4 : ℚ), (1/2 : ℚ), (3/4 : ℚ), (1 : ℚ)).2.1 = 1/2) :=
  ⟨by decide, ((claim_C10 ⟨2, 1⟩ (by decide)).2 (3/4, 1/2, 3/4, 1)
    (by rw [colors_2_1]; exact List.mem_cons_self _ _)).1⟩

end Sentionaut
